import Mathlib

/-!
Verification of the architecture-construction logic, label remapping, accuracy
metric and deformable-kernel repulsion regularizer of
`models/architectures_sphere_middle_fusion.py` (class `KPFCNN_featureAggre`
and function `p2p_fitting_regularizer`).

The Python code is shallowly embedded: the `__init__` construction loops become
explicit state-passing functions over an encoder state and a decoder state,
Python floats for the convolution radius become exact rationals, Python
integers become `Nat`/`Int` (Python `//` on nonnegative values is `Nat`
division, Python list indexing with possibly negative indices is `pyGet`),
and `raise ValueError` becomes `Except.error`.
-/

namespace KPConvFusion

/-- Python `pat in s` substring test on explicit character lists.
`'' in s` is `True` in Python, so the empty pattern always matches. -/
def containsSub : List Char → List Char → Bool
  | _, [] => true
  | [], _ :: _ => false
  | c :: t, p => List.isPrefixOf p (c :: t) || containsSub t p

/-- Python `pat in s` on strings (substring containment). -/
def strContains (s pat : String) : Bool := containsSub s.data pat.data

/-- Python list indexing `xs[i]`: nonnegative indices from the front,
negative indices from the back, out-of-range is an `IndexError` (`none`). -/
def pyGet {α : Type} (xs : List α) (i : ℤ) : Option α :=
  if 0 ≤ i then xs.get? i.toNat
  else if 0 ≤ (xs.length : ℤ) + i then xs.get? ((xs.length : ℤ) + i).toNat
  else none

/-- The configuration fields of `config` read by `KPFCNN_featureAggre.__init__`
that matter for the construction logic. -/
structure Config where
  architecture : List String
  first_subsampling_dl : ℚ
  conv_radius : ℚ
  in_features_dim_3d : ℕ
  in_features_dim_2d : ℕ
  first_features_dim : ℕ
  num_kernel_points : ℕ
  deform_fitting_mode : String
deriving DecidableEq

/-- The arguments passed to `block_decider(block, r, in_dim, out_dim, layer,
config)`.  `block_decider` lives in `models/blocks.py` (outside the sources
given here), so a constructed block is modelled as the tuple of arguments it
receives. -/
structure BlockSpec where
  name : String
  radius : ℚ
  in_dim : ℕ
  out_dim : ℕ
  layer : ℤ
deriving DecidableEq

/-- The mutable bookkeeping threaded through the encoder construction loop. -/
structure EncState where
  layer : ℤ
  r : ℚ
  in_dim_3d : ℕ
  in_dim_2d : ℕ
  out_dim : ℕ
  encoder_skips : List ℕ
  encoder_skip_dims : List ℕ
  encoder_blocks_3d : List BlockSpec
  encoder_blocks_2d : List BlockSpec
deriving DecidableEq

/-- The mutable bookkeeping threaded through the decoder construction loop. -/
structure DecState where
  layer : ℤ
  r : ℚ
  in_dim : ℕ
  out_dim : ℕ
  decoder_blocks : List BlockSpec
  decoder_concats : List ℕ
deriving DecidableEq

/-- Condition `np.any([tmp in block for tmp in ['pool', 'strided', 'upsample', 'global']])`:
the skip-tap condition of the encoder loop. -/
def isSkipBlock (block : String) : Bool :=
  strContains block "pool" || strContains block "strided" ||
    strContains block "upsample" || strContains block "global"

/-- Lines 101-104 of `__init__`: record the skip tap (index and combined
current input width) when the block matches the skip condition. -/
def encSkipRecord (block : String) (i : ℕ) (s : EncState) : EncState :=
  if isSkipBlock block then
    { s with encoder_skips := s.encoder_skips ++ [i],
             encoder_skip_dims :=
               s.encoder_skip_dims ++ [s.in_dim_3d + s.in_dim_2d] }
  else s

/-- Lines 110-138 of `__init__` for a non-upsample block: append the two
tower blocks, update the input widths from the output width (halved for
`'simple'` blocks), and on a pooling/strided block bump layer, double the
radius and double the output width. -/
def encBlockUpdate (block : String) (s1 : EncState) : EncState :=
  let s2 := { s1 with
    encoder_blocks_3d :=
      s1.encoder_blocks_3d ++ [BlockSpec.mk block s1.r s1.in_dim_3d s1.out_dim s1.layer],
    encoder_blocks_2d :=
      s1.encoder_blocks_2d ++ [BlockSpec.mk block s1.r s1.in_dim_2d s1.out_dim s1.layer] }
  let s3 := if strContains block "simple" then
      { s2 with in_dim_3d := s2.out_dim / 2, in_dim_2d := s2.out_dim / 2 }
    else
      { s2 with in_dim_3d := s2.out_dim, in_dim_2d := s2.out_dim }
  if strContains block "pool" || strContains block "strided" then
    { s3 with layer := s3.layer + 1, r := s3.r * 2, out_dim := s3.out_dim * 2 }
  else s3

/-- The encoder construction loop
(`for block_i, block in enumerate(config.architecture)` in `__init__`).
The first argument is `block_i`.  The `Bool` in the result records whether the
loop exited through the `'upsample' in block: break` branch. -/
def encLoop : ℕ → EncState → List String → Except String (EncState × Bool)
  | _, s, [] => .ok (s, false)
  | i, s, block :: rest =>
    if strContains block "equivariant" && !(s.out_dim % 3 == 0) then
      .error "Equivariant block but features dimension is not a factor of 3"
    else
      let s1 := encSkipRecord block i s
      if strContains block "upsample" then
        .ok (s1, true)
      else
        encLoop (i + 1) (encBlockUpdate block s1) rest

/-- The `start_i` search of `__init__`: index of the first block containing
`'upsample'`, or `0` if there is none (the Python loop leaves the initial
value `start_i = 0` untouched in that case). -/
def firstUpsampleIdx (arch : List String) : ℕ :=
  if arch.any (fun b => strContains b "upsample") then
    (arch.takeWhile (fun b => !strContains b "upsample")).length
  else 0

/-- The decoder concat condition
`block_i > 0 and 'upsample' in config.architecture[start_i + block_i - 1]`:
the previous block of the sliced list is an upsample block (`none` stands for
`block_i = 0`). -/
def prevIsUp : Option String → Bool
  | some pb => strContains pb "upsample"
  | none => false

/-- Lines 166-182 of `__init__`: append the decoder block, set the next input
width to the output width, and on an upsample block decrement the layer,
halve the radius and halve the output width. -/
def decBlockUpdate (block : String) (s1 : DecState) : DecState :=
  let s2 := { s1 with decoder_blocks :=
    s1.decoder_blocks ++ [BlockSpec.mk block s1.r s1.in_dim s1.out_dim s1.layer] }
  let s3 := { s2 with in_dim := s2.out_dim }
  if strContains block "upsample" then
    { s3 with layer := s3.layer - 1, r := s3.r * (1 / 2),
              out_dim := s3.out_dim / 2 }
  else s3

/-- The decoder construction loop
(`for block_i, block in enumerate(config.architecture[start_i:])`).
`prev` is the previous block of the sliced list
(`config.architecture[start_i + block_i - 1]`), `none` at `block_i = 0`. -/
def decLoop (skipDims : List ℕ) :
    Option String → ℕ → DecState → List String → Except String DecState
  | _, _, s, [] => .ok s
  | prev, i, s, block :: rest =>
    match (if prevIsUp prev then
        match pyGet skipDims s.layer with
        | none => Except.error "IndexError: list index out of range"
        | some d =>
          Except.ok { s with in_dim := s.in_dim + d,
                             decoder_concats := s.decoder_concats ++ [i] }
      else Except.ok s) with
    | .error e => .error e
    | .ok s1 => decLoop skipDims (some block) (i + 1) (decBlockUpdate block s1) rest

/-- Insert into a sorted list (ascending). -/
def insertSorted (x : ℤ) : List ℤ → List ℤ
  | [] => [x]
  | y :: ys => if x ≤ y then x :: y :: ys else y :: insertSorted x ys

/-- Python `np.sort` on a list of integer labels (ascending insertion sort). -/
def pySort (l : List ℤ) : List ℤ := l.foldr insertSorted []

/-- The result of `KPFCNN_featureAggre.__init__`: the recorded skip registry,
the four layer collections, the head dimensions and the loss bookkeeping. -/
structure Model where
  encoder_skips : List ℕ
  encoder_skip_dims : List ℕ
  encoder_blocks_3d : List BlockSpec
  encoder_blocks_2d : List BlockSpec
  decoder_blocks : List BlockSpec
  decoder_concats : List ℕ
  final_layer : ℤ
  final_r : ℚ
  final_out_dim : ℕ
  head_mlp_in : ℕ
  head_mlp_out : ℕ
  numC : ℤ
  valid_labels : List ℤ
  deform_fitting_mode : String
deriving DecidableEq

/-- The initial encoder state of `__init__` (`layer = 0`,
`r = config.first_subsampling_dl * config.conv_radius`, the two input widths,
`out_dim = config.first_features_dim`, empty registries). -/
def initState (cfg : Config) : EncState :=
  { layer := 0
    r := cfg.first_subsampling_dl * cfg.conv_radius
    in_dim_3d := cfg.in_features_dim_3d
    in_dim_2d := cfg.in_features_dim_2d
    out_dim := cfg.first_features_dim
    encoder_skips := []
    encoder_skip_dims := []
    encoder_blocks_3d := []
    encoder_blocks_2d := [] }

/-- Constructor `KPFCNN_featureAggre.__init__(config, lbl_values, ign_lbls)`:
runs the encoder loop, the decoder loop over `architecture[start_i:]`
(with `in_dim = in_dim_3d + in_dim_2d`), and records the heads, `self.C`,
`self.valid_labels` and `self.deform_fitting_mode`.  A `ValueError` or
`IndexError` during construction is `Except.error`.  Note the fitting mode is
stored without any validation. -/
def buildModel (cfg : Config) (lbl_values ign_lbls : List ℤ) :
    Except String Model :=
  match encLoop 0 (initState cfg) cfg.architecture with
  | .error e => .error e
  | .ok (se, _) =>
    match decLoop se.encoder_skip_dims none 0
        { layer := se.layer, r := se.r,
          in_dim := se.in_dim_3d + se.in_dim_2d,
          out_dim := se.out_dim,
          decoder_blocks := [], decoder_concats := [] }
        (cfg.architecture.drop (firstUpsampleIdx cfg.architecture)) with
    | .error e => .error e
    | .ok sd =>
      .ok { encoder_skips := se.encoder_skips
            encoder_skip_dims := se.encoder_skip_dims
            encoder_blocks_3d := se.encoder_blocks_3d
            encoder_blocks_2d := se.encoder_blocks_2d
            decoder_blocks := sd.decoder_blocks
            decoder_concats := sd.decoder_concats
            final_layer := sd.layer
            final_r := sd.r
            final_out_dim := sd.out_dim
            head_mlp_in := sd.out_dim
            head_mlp_out := cfg.first_features_dim
            numC := (lbl_values.length : ℤ) - (ign_lbls.length : ℤ)
            valid_labels := pySort (lbl_values.filter (fun c => !(ign_lbls.contains c)))
            deform_fitting_mode := cfg.deform_fitting_mode }

/-- Number of pooling/strided transitions the builder processes: blocks
containing `'pool'` or `'strided'` strictly before the first `'upsample'`
block (the encoder loop breaks there, and the decoder loop never doubles). -/
def encPoolCount (arch : List String) : ℕ :=
  (arch.takeWhile (fun b => !strContains b "upsample")).countP
    (fun b => strContains b "pool" || strContains b "strided")

/-- Number of upsampling transitions the builder processes: blocks containing
`'upsample'` from `start_i` on (the decoder region). -/
def decUpCount (arch : List String) : ℕ :=
  (arch.drop (firstUpsampleIdx arch)).countP (fun b => strContains b "upsample")

/-! ### Forward-pass skip bookkeeping

`forward` captures `skip_x.append(x_3d)` at every index of `encoder_blocks_3d`
that lies in `encoder_skips`, and pops one entry (`skip_x.pop()`) at every
decoder index in `decoder_concats`.  Only the counter matters for the
pop-from-empty `IndexError`, so the replay is modelled on the counter. -/

/-- Number of skip features captured during the encoder passes of `forward`:
indices of `encoder_blocks_3d` that are members of `encoder_skips`. -/
def capturedSkips (m : Model) : ℕ :=
  ((List.range m.encoder_blocks_3d.length).filter
    (fun i => m.encoder_skips.contains i)).length

/-- One decoder iteration of the skip replay: at a concat index, `skip_x.pop()`
fails (`none`) on an empty stack, otherwise the stack shrinks by one. -/
def replayStep (concats : List ℕ) (acc : Option ℕ) (i : ℕ) : Option ℕ :=
  match acc with
  | none => none
  | some c =>
    if concats.contains i then
      match c with
      | 0 => none
      | Nat.succ c' => some c'
    else some c

/-- The skip bookkeeping of `forward`: capture taps, then walk the decoder
blocks popping at each concat index; `true` iff no pop underflows. -/
def skipReplay (m : Model) : Bool :=
  ((List.range m.decoder_blocks.length).foldl
    (replayStep m.decoder_concats) (some (capturedSkips m))).isSome

/-! ### Label remapping, loss and accuracy -/

/-- The target construction of `KPFCNN_featureAggre.loss`:
`target = - torch.ones_like(labels)` followed by
`for i, c in enumerate(self.valid_labels): target[labels == c] = i`. -/
def lossTarget (valid_labels : List ℤ) (labels : List ℤ) : List ℤ :=
  valid_labels.enum.foldl
    (fun target ic =>
      (labels.zip target).map (fun lt => if lt.1 = ic.2 then (ic.1 : ℤ) else lt.2))
    (labels.map (fun _ => (-1 : ℤ)))

/-- The target construction of `KPFCNN_featureAggre.accuracy` (same code as in
`loss`, repeated in the source). -/
def accuracyTarget (valid_labels : List ℤ) (labels : List ℤ) : List ℤ :=
  valid_labels.enum.foldl
    (fun target ic =>
      (labels.zip target).map (fun lt => if lt.1 = ic.2 then (ic.1 : ℤ) else lt.2))
    (labels.map (fun _ => (-1 : ℤ)))

/-- What one entry of the remapped target works out to: the index written by
the last matching `target[labels == c] = i` assignment, or the initial `-1`. -/
def remapOneAux (ps : List (ℕ × ℤ)) (l : ℤ) (t0 : ℤ) : ℤ :=
  ps.foldl (fun t ic => if l = ic.2 then (ic.1 : ℤ) else t) t0

/-- Entrywise description of the remapping. -/
def remapOne (valid_labels : List ℤ) (l : ℤ) : ℤ :=
  remapOneAux valid_labels.enum l (-1)

/-- Index `torch.argmax(row)` over one row of logits: index of the first maximal
entry. -/
def argmaxIdx (row : List ℚ) : ℕ :=
  (row.enum.foldl
    (fun best ic => if best.2 < ic.2 then ic else best)
    (0, row.headD 0)).1

/-- Method `KPFCNN_featureAggre.accuracy(outputs, labels)`: remap the labels,
take the per-point argmax of the logits, and return
`correct / total` where `total = target.size(0)` counts every point. -/
def accuracy (valid_labels : List ℤ) (outputs : List (List ℚ)) (labels : List ℤ) : ℚ :=
  let target := accuracyTarget valid_labels labels
  let predicted := outputs.map (fun row => (argmaxIdx row : ℤ))
  let total := target.length
  let correct := ((predicted.zip target).filter (fun pt => pt.1 = pt.2)).length
  (correct : ℚ) / (total : ℚ)

/-- One cross-entropy term `-log softmax(row)[t]` of
`torch.nn.CrossEntropyLoss` as used in `loss`. -/
noncomputable def nllTerm (row : List ℚ) (t : ℤ) : ℝ :=
  Real.log ((row.map (fun x => Real.exp (x : ℝ))).sum) - ((row.getD t.toNat 0 : ℚ) : ℝ)

/-- Criterion `torch.nn.CrossEntropyLoss(ignore_index=-1)` with mean reduction, applied
in `loss`: entries whose target is the ignored sentinel `-1` contribute
neither to the sum nor to the denominator. -/
noncomputable def ceLoss (outputs : List (List ℚ)) (target : List ℤ) : ℝ :=
  let pairs := (outputs.zip target).filter (fun p => p.2 ≠ -1)
  ((pairs.map (fun p => nllTerm p.1 p.2)).sum) / (pairs.length : ℝ)

/-- The deformable-regularization dispatch at the end of
`KPFCNN_featureAggre.loss`: `point2point` uses the regularizer value,
`point2plane` and any other mode raise a `ValueError`. -/
def deformRegBranch (mode : String) (regVal : ℚ) : Except String ℚ :=
  if mode = "point2point" then .ok regVal
  else if mode = "point2plane" then
    .error "point2plane fitting mode not implemented yet."
  else .error ("Unknown fitting mode: " ++ mode)

/-! ### Repulsion term of `p2p_fitting_regularizer`

Kernel points live in 3-space; a deformable layer has `deformed_KP` of shape
`(B, K, 3)`, modelled as a list of `B` rows of `K` points with real
coordinates.  `KP_locs = deformed_KP / KP_extent`, and for each `i < K` the
distances from point `i` to the others are clamped above at `0` after
subtracting `repulse_extent`, squared, summed over the partners, passed
through `nn.L1Loss()` (a mean over the batch) and divided by `K`. -/

/-- A point of `deformed_KP`. -/
abbrev Pt : Type := ℝ × ℝ × ℝ

/-- Normalization `deformed_KP / KP_extent` applied to one point. -/
noncomputable def scalePt (ext : ℝ) (p : Pt) : Pt := (p.1 / ext, p.2.1 / ext, p.2.2 / ext)

/-- Squared distance `torch.sum((q - p) ** 2, dim=2)` for a single pair. -/
def sqDist3 (q p : Pt) : ℝ :=
  (q.1 - p.1) ^ 2 + (q.2.1 - p.2.1) ^ 2 + (q.2.2 - p.2.2) ^ 2

/-- Distance `torch.sqrt` of the squared distance. -/
noncomputable def dist3 (q p : Pt) : ℝ := Real.sqrt (sqDist3 q p)

/-- Clamp `torch.clamp_max(x, max=0.0)`. -/
noncomputable def clampMax0 (x : ℝ) : ℝ := min x 0

/-- Slice `torch.cat([KP_locs[:, :i, :], KP_locs[:, i+1:, :]], dim=1)` on one row. -/
def removeIdx {α : Type} (l : List α) (i : ℕ) : List α := l.take i ++ l.drop (i + 1)

/-- Row loss `rep_loss` for one batch row and one kernel-point index `i`:
`torch.sum(torch.clamp_max(distances - repulse_extent, max=0.0) ** 2, dim=1)`. -/
noncomputable def repRow (repulse : ℝ) (row : List Pt) (i : ℕ) : ℝ :=
  ((removeIdx row i).map
    (fun q => clampMax0 (dist3 q (row.getD i ((0 : ℝ), (0 : ℝ), (0 : ℝ))) - repulse) ^ 2)).sum

/-- Mean `nn.L1Loss()(xs, zeros)`: mean absolute value over the batch. -/
noncomputable def l1Mean (xs : List ℝ) : ℝ := ((xs.map (fun x => |x|)).sum) / (xs.length : ℝ)

/-- The accumulated `repulsive_loss` of `p2p_fitting_regularizer` for one
deformable layer: rows of `deformed_KP`, divided by `KP_extent`, looped over
`i in range(net.K)` with `repulsive_loss += self.l1(rep_loss, zeros) / net.K`. -/
noncomputable def repulsiveLoss (K : ℕ) (kpExtent repulse : ℝ) (rows : List (List Pt)) : ℝ :=
  ((List.range K).map (fun i =>
    l1Mean ((rows.map (fun row => row.map (scalePt kpExtent))).map
      (fun row => repRow repulse row i)) / (K : ℝ))).sum

/-- The already-dense valid-label list `[0, 1, ..., C-1]`. -/
def rangeInt (C : ℕ) : List ℤ := List.map (fun n : ℕ => (n : ℤ)) (List.range C)

/-! ### Projections of a construction result (for concrete statements) -/

/-- Registry `encoder_skips` of a successful construction (`[]` on error). -/
def skipsOf (r : Except String Model) : List ℕ :=
  match r with | .ok m => m.encoder_skips | .error _ => []

/-- Registry `encoder_skip_dims` of a successful construction (`[]` on error). -/
def skipDimsOf (r : Except String Model) : List ℕ :=
  match r with | .ok m => m.encoder_skip_dims | .error _ => []

/-- Registry `decoder_concats` of a successful construction (`[]` on error). -/
def concatsOf (r : Except String Model) : List ℕ :=
  match r with | .ok m => m.decoder_concats | .error _ => []

/-- Final `out_dim` (the head's input width) of a successful construction. -/
def outOf (r : Except String Model) : ℕ :=
  match r with | .ok m => m.final_out_dim | .error _ => 0

/-- Final radius of a successful construction. -/
def radiusOf (r : Except String Model) : ℚ :=
  match r with | .ok m => m.final_r | .error _ => 0

/-- Final layer index of a successful construction. -/
def layerOf (r : Except String Model) : ℤ :=
  match r with | .ok m => m.final_layer | .error _ => 0

/-- Number of captured skip features of a successful construction. -/
def capturedOf (r : Except String Model) : ℕ :=
  match r with | .ok m => capturedSkips m | .error _ => 0

/-- Skip replay success of a successful construction. -/
def skipReplayOf (r : Except String Model) : Bool :=
  match r with | .ok m => skipReplay m | .error _ => false

/-! ### Concrete configurations used in the statements -/

/-- Example label sets. -/
def lbl0 : List ℤ := [0, 1, 2]

/-- Example ignored-label set. -/
def ign0 : List ℤ := []

/-- The example architecture of the spec:
`["simple","resnetb","resnetb_strided","resnetb","upsample","unary"]`
with `r0 = 1` and `w0 = 8`. -/
def cfgExample : Config :=
  { architecture := ["simple", "resnetb", "resnetb_strided", "resnetb", "upsample", "unary"]
    first_subsampling_dl := 1
    conv_radius := 1
    in_features_dim_3d := 4
    in_features_dim_2d := 65
    first_features_dim := 8
    num_kernel_points := 15
    deform_fitting_mode := "point2point" }

/-- An architecture with one upsampling transition and no pooling transition
(`M = 1 > N = 0`), with odd initial width `w0 = 3`. -/
def cfgUpUnary : Config :=
  { cfgExample with architecture := ["upsample", "unary"], first_features_dim := 3 }

/-- An architecture with a `'pool'` block after the first `'upsample'` block. -/
def cfgUpPool : Config :=
  { cfgExample with architecture := ["upsample", "pool"] }

/-- A configuration selecting the unimplemented `point2plane` fitting mode. -/
def cfgP2P : Config :=
  { cfgExample with architecture := ["unary"], deform_fitting_mode := "point2plane" }

/-- An architecture whose first block is equivariant while `out_dim = 4` is
not divisible by 3. -/
def cfgEquiv : Config :=
  { cfgExample with architecture := ["equivariant_simple"], first_features_dim := 4 }

/-- A one-block architecture whose single block is a pooling block. -/
def cfgPool : Config := { cfgExample with architecture := ["pool"] }

/-! ### Entrywise characterization of the label remapping -/

theorem zip_map_update (labels : List ℤ) (g : ℤ → ℤ) (i : ℕ) (c : ℤ) :
    (labels.zip (labels.map g)).map
        (fun lt => if lt.1 = c then (i : ℤ) else lt.2) =
      labels.map (fun l => if l = c then (i : ℤ) else g l) := by
  induction labels with
  | nil => rfl
  | cons a t ih => simp [ih]

theorem foldl_remap_eq_map (ps : List (ℕ × ℤ)) :
    ∀ (labels : List ℤ) (g : ℤ → ℤ),
      ps.foldl
          (fun target ic =>
            (labels.zip target).map
              (fun lt => if lt.1 = ic.2 then (ic.1 : ℤ) else lt.2))
          (labels.map g) =
        labels.map (fun l => remapOneAux ps l (g l)) := by
  induction ps with
  | nil => intro labels g; simp [remapOneAux]
  | cons ic ps ih =>
    intro labels g
    simp only [List.foldl_cons, zip_map_update]
    rw [ih labels (fun l => if l = ic.2 then (ic.1 : ℤ) else g l)]
    simp [remapOneAux]

theorem lossTarget_eq_map (valid_labels labels : List ℤ) :
    lossTarget valid_labels labels = labels.map (remapOne valid_labels) := by
  unfold lossTarget remapOne
  exact foldl_remap_eq_map valid_labels.enum labels (fun _ => (-1 : ℤ))

theorem lossTarget_length (valid_labels labels : List ℤ) :
    (lossTarget valid_labels labels).length = labels.length := by
  rw [lossTarget_eq_map]; exact labels.length_map _

/-- What the per-entry remapping evaluates to: either the initial value with
the label absent from the (offset-enumerated) list, or the offset index of an
occurrence of the label. -/
theorem remapOneAux_enumFrom_spec (valid_labels : List ℤ) :
    ∀ (k : ℕ) (l t0 : ℤ),
      (remapOneAux (List.enumFrom k valid_labels) l t0 = t0 ∧ l ∉ valid_labels) ∨
      (∃ i : ℕ, i < valid_labels.length ∧
        remapOneAux (List.enumFrom k valid_labels) l t0 = ((k + i : ℕ) : ℤ) ∧
        valid_labels.get? i = some l) := by
  induction valid_labels with
  | nil => intro k l t0; exact Or.inl ⟨rfl, List.not_mem_nil l⟩
  | cons c t ih =>
    intro k l t0
    have step : remapOneAux (List.enumFrom k (c :: t)) l t0 =
        remapOneAux (List.enumFrom (k + 1) t) l (if l = c then (k : ℤ) else t0) := by
      simp [remapOneAux]
    rcases ih (k + 1) l (if l = c then (k : ℤ) else t0) with ⟨heq, hmem⟩ | ⟨i, hi, heq, hget⟩
    · by_cases hc : l = c
      · refine Or.inr ⟨0, Nat.succ_pos _, ?_, by simp [hc]⟩
        rw [step, heq, if_pos hc]; simp
      · refine Or.inl ⟨?_, ?_⟩
        · rw [step, heq, if_neg hc]
        · simp only [List.mem_cons, not_or]; exact ⟨hc, hmem⟩
    · refine Or.inr ⟨i + 1, by simp only [List.length_cons]; omega, ?_, by simpa using hget⟩
      rw [step, heq]; congr 1; omega

theorem remapOne_spec (valid_labels : List ℤ) (l : ℤ) :
    (remapOne valid_labels l = -1 ∧ l ∉ valid_labels) ∨
    (∃ i : ℕ, i < valid_labels.length ∧ remapOne valid_labels l = (i : ℤ) ∧
      valid_labels.get? i = some l) := by
  have h := remapOneAux_enumFrom_spec valid_labels 0 l (-1)
  simpa [remapOne, List.enum] using h

theorem remapOne_not_mem (valid_labels : List ℤ) (l : ℤ) (h : l ∉ valid_labels) :
    remapOne valid_labels l = -1 := by
  rcases remapOne_spec valid_labels l with ⟨heq, _⟩ | ⟨i, _, _, hget⟩
  · exact heq
  · exact absurd (List.get?_mem hget) h

/-! ### Composing runs of the encoder loop -/

theorem encLoop_append (l₁ l₂ : List String) :
    ∀ (i : ℕ) (s : EncState),
      encLoop i s (l₁ ++ l₂) =
        match encLoop i s l₁ with
        | .ok (s', false) => encLoop (i + l₁.length) s' l₂
        | .ok (s', true) => .ok (s', true)
        | .error e => .error e := by
  induction l₁ with
  | nil => intro i s; simp [encLoop]
  | cons b t ih =>
    intro i s
    simp only [List.cons_append, encLoop]
    split
    · rfl
    · split
      · rfl
      · have harith : i + (b :: t).length = i + 1 + t.length := by
          simp only [List.length_cons]; omega
        rw [harith]
        exact ih (i + 1) _

/-! ### Field equations of the loop step functions -/

theorem encSkipRecord_layer (b : String) (i : ℕ) (s : EncState) :
    (encSkipRecord b i s).layer = s.layer := by
  unfold encSkipRecord; split <;> rfl

theorem encSkipRecord_r (b : String) (i : ℕ) (s : EncState) :
    (encSkipRecord b i s).r = s.r := by
  unfold encSkipRecord; split <;> rfl

theorem encSkipRecord_out (b : String) (i : ℕ) (s : EncState) :
    (encSkipRecord b i s).out_dim = s.out_dim := by
  unfold encSkipRecord; split <;> rfl

theorem encSkipRecord_in3 (b : String) (i : ℕ) (s : EncState) :
    (encSkipRecord b i s).in_dim_3d = s.in_dim_3d := by
  unfold encSkipRecord; split <;> rfl

theorem encSkipRecord_in2 (b : String) (i : ℕ) (s : EncState) :
    (encSkipRecord b i s).in_dim_2d = s.in_dim_2d := by
  unfold encSkipRecord; split <;> rfl

theorem encSkipRecord_blocks3d (b : String) (i : ℕ) (s : EncState) :
    (encSkipRecord b i s).encoder_blocks_3d = s.encoder_blocks_3d := by
  unfold encSkipRecord; split <;> rfl

theorem encSkipRecord_skips (b : String) (i : ℕ) (s : EncState) :
    (encSkipRecord b i s).encoder_skips =
      if isSkipBlock b then s.encoder_skips ++ [i] else s.encoder_skips := by
  unfold encSkipRecord; split <;> simp_all

theorem encSkipRecord_skipDims (b : String) (i : ℕ) (s : EncState) :
    (encSkipRecord b i s).encoder_skip_dims =
      if isSkipBlock b then s.encoder_skip_dims ++ [s.in_dim_3d + s.in_dim_2d]
      else s.encoder_skip_dims := by
  unfold encSkipRecord; split <;> simp_all

theorem encBlockUpdate_skips (b : String) (s : EncState) :
    (encBlockUpdate b s).encoder_skips = s.encoder_skips := by
  unfold encBlockUpdate; split <;> (first | rfl | (split <;> rfl))

theorem encBlockUpdate_skipDims (b : String) (s : EncState) :
    (encBlockUpdate b s).encoder_skip_dims = s.encoder_skip_dims := by
  unfold encBlockUpdate; split <;> (first | rfl | (split <;> rfl))

theorem encBlockUpdate_blocks3d_len (b : String) (s : EncState) :
    (encBlockUpdate b s).encoder_blocks_3d.length =
      s.encoder_blocks_3d.length + 1 := by
  unfold encBlockUpdate; split <;> split <;> simp

theorem encBlockUpdate_layer (b : String) (s : EncState) :
    (encBlockUpdate b s).layer =
      s.layer +
        (if strContains b "pool" || strContains b "strided" then 1 else 0) := by
  unfold encBlockUpdate; split <;> split <;> simp_all

theorem encBlockUpdate_r (b : String) (s : EncState) :
    (encBlockUpdate b s).r =
      s.r * (if strContains b "pool" || strContains b "strided" then 2 else 1) := by
  unfold encBlockUpdate; split <;> split <;> simp_all

theorem encBlockUpdate_out (b : String) (s : EncState) :
    (encBlockUpdate b s).out_dim =
      s.out_dim *
        (if strContains b "pool" || strContains b "strided" then 2 else 1) := by
  unfold encBlockUpdate; split <;> split <;> simp_all

theorem decBlockUpdate_layer (b : String) (s : DecState) :
    (decBlockUpdate b s).layer =
      s.layer - (if strContains b "upsample" then 1 else 0) := by
  unfold decBlockUpdate; split <;> simp_all

theorem decBlockUpdate_r (b : String) (s : DecState) :
    (decBlockUpdate b s).r =
      s.r * (if strContains b "upsample" then (1 / 2 : ℚ) else 1) := by
  unfold decBlockUpdate; split <;> simp_all

theorem decBlockUpdate_out (b : String) (s : DecState) :
    (decBlockUpdate b s).out_dim =
      if strContains b "upsample" then s.out_dim / 2 else s.out_dim := by
  unfold decBlockUpdate; split <;> simp_all

theorem decBlockUpdate_concats (b : String) (s : DecState) :
    (decBlockUpdate b s).decoder_concats = s.decoder_concats := by
  unfold decBlockUpdate; split <;> rfl

theorem decBlockUpdate_blocks_len (b : String) (s : DecState) :
    (decBlockUpdate b s).decoder_blocks.length = s.decoder_blocks.length + 1 := by
  unfold decBlockUpdate; split <;> simp

theorem encLoop_append_ok (l₁ l₂ : List String) (i : ℕ) (s s₁ : EncState)
    (h1 : encLoop i s l₁ = .ok (s₁, false)) :
    encLoop i s (l₁ ++ l₂) = encLoop (i + l₁.length) s₁ l₂ := by
  rw [encLoop_append, h1]

theorem encLoop_append_brk (l₁ l₂ : List String) (i : ℕ) (s s₁ : EncState)
    (h1 : encLoop i s l₁ = .ok (s₁, true)) :
    encLoop i s (l₁ ++ l₂) = .ok (s₁, true) := by
  rw [encLoop_append, h1]

theorem encLoop_append_err (l₁ l₂ : List String) (i : ℕ) (s : EncState) (e : String)
    (h1 : encLoop i s l₁ = .error e) :
    encLoop i s (l₁ ++ l₂) = .error e := by
  rw [encLoop_append, h1]

/-- Step equation of the decoder loop when the previous block was an upsample
block and the skip-width lookup succeeds. -/
theorem decLoop_cons_concat (dims : List ℕ) (prev : Option String) (i : ℕ)
    (s : DecState) (b : String) (rest : List String) (d : ℕ)
    (hpv : prevIsUp prev = true) (hg : pyGet dims s.layer = some d) :
    decLoop dims prev i s (b :: rest) =
      decLoop dims (some b) (i + 1)
        (decBlockUpdate b
          { s with in_dim := s.in_dim + d,
                   decoder_concats := s.decoder_concats ++ [i] }) rest := by
  simp only [decLoop, hpv, if_true, hg]

/-- Step equation of the decoder loop when the skip-width lookup underflows:
the `IndexError` aborts construction. -/
theorem decLoop_cons_concat_err (dims : List ℕ) (prev : Option String) (i : ℕ)
    (s : DecState) (b : String) (rest : List String)
    (hpv : prevIsUp prev = true) (hg : pyGet dims s.layer = none) :
    decLoop dims prev i s (b :: rest) =
      .error "IndexError: list index out of range" := by
  simp only [decLoop, hpv, if_true, hg]

/-- Step equation of the decoder loop when the previous block was not an
upsample block. -/
theorem decLoop_cons_plain (dims : List ℕ) (prev : Option String) (i : ℕ)
    (s : DecState) (b : String) (rest : List String)
    (hpv : prevIsUp prev = false) :
    decLoop dims prev i s (b :: rest) =
      decLoop dims (some b) (i + 1) (decBlockUpdate b s) rest := by
  simp only [decLoop, hpv, Bool.false_eq_true, if_false]

/-- The head of a nonempty `dropWhile` fails the predicate. -/
theorem dropWhile_cons_head {α : Type} (p : α → Bool) (l : List α) (x : α)
    (xs : List α) (h : l.dropWhile p = x :: xs) : p x = false := by
  induction l with
  | nil => simp [List.dropWhile] at h
  | cons a t ih =>
    rw [List.dropWhile_cons] at h
    by_cases hp : p a = true
    · rw [if_pos hp] at h; exact ih h
    · rw [if_neg hp] at h
      cases h
      simpa using hp

/-- Invariant of the encoder loop over a run that contains no upsample block:
no break occurs, the layer index grows by the number of pooling/strided
blocks, radius and output width double that many times, and the skip-width
registry grows by the number of skip-condition blocks. -/
theorem encLoop_no_upsample (l : List String) :
    ∀ (i : ℕ) (s s' : EncState) (brk : Bool),
      (∀ b ∈ l, strContains b "upsample" = false) →
      encLoop i s l = .ok (s', brk) →
      brk = false ∧
      s'.layer = s.layer +
        (l.countP (fun b => strContains b "pool" || strContains b "strided") : ℤ) ∧
      s'.r = s.r * 2 ^ l.countP (fun b => strContains b "pool" || strContains b "strided") ∧
      s'.out_dim =
        s.out_dim * 2 ^ l.countP (fun b => strContains b "pool" || strContains b "strided") ∧
      s'.encoder_skip_dims.length =
        s.encoder_skip_dims.length + l.countP (fun b => isSkipBlock b) := by
  induction l with
  | nil =>
    intro i s s' brk _ h
    simp only [encLoop, Except.ok.injEq, Prod.mk.injEq] at h
    obtain ⟨rfl, rfl⟩ := h
    simp
  | cons b t ih =>
    intro i s s' brk hl h
    have hub : strContains b "upsample" = false := hl b (List.mem_cons_self b t)
    simp only [encLoop] at h
    by_cases hcond : (strContains b "equivariant" && !(s.out_dim % 3 == 0)) = true
    · rw [if_pos hcond] at h; simp at h
    · rw [if_neg hcond, hub] at h
      simp only [Bool.false_eq_true, if_false] at h
      obtain ⟨hbrk, hlayer, hr, hout, hdims⟩ :=
        ih (i + 1) _ s' brk (fun x hx => hl x (List.mem_cons_of_mem b hx)) h
      rw [encBlockUpdate_layer, encSkipRecord_layer] at hlayer
      rw [encBlockUpdate_r, encSkipRecord_r] at hr
      rw [encBlockUpdate_out, encSkipRecord_out] at hout
      rw [encBlockUpdate_skipDims, encSkipRecord_skipDims] at hdims
      refine ⟨hbrk, ?_, ?_, ?_, ?_⟩
      · rw [hlayer, List.countP_cons]
        by_cases hp : (strContains b "pool" || strContains b "strided") = true
        · simp only [hp, if_true]; push_cast; ring
        · simp only [hp, if_false]
          simp only [Bool.not_eq_true] at hp
          simp [hp]
      · rw [hr, List.countP_cons]
        by_cases hp : (strContains b "pool" || strContains b "strided") = true
        · simp only [hp, if_true, pow_succ]; ring
        · simp only [hp, if_false]
          simp only [Bool.not_eq_true] at hp
          simp [hp]
      · rw [hout, List.countP_cons]
        by_cases hp : (strContains b "pool" || strContains b "strided") = true
        · simp only [hp, if_true, pow_succ]; ring
        · simp only [hp, if_false]
          simp only [Bool.not_eq_true] at hp
          simp [hp]
      · rw [hdims, List.countP_cons]
        by_cases hk : isSkipBlock b = true
        · simp only [hk, if_true]
          simp [List.length_append]
          omega
        · simp only [hk, if_false]
          simp only [Bool.not_eq_true] at hk
          simp [hk]

/-- Step equation of the encoder loop at an upsample block that passes the
equivariance check: record the tap and break. -/
theorem encLoop_upsample_head (b : String) (rest : List String) (i : ℕ)
    (s : EncState) (hup : strContains b "upsample" = true)
    (hcond : (strContains b "equivariant" && !(s.out_dim % 3 == 0)) = false) :
    encLoop i s (b :: rest) = .ok (encSkipRecord b i s, true) := by
  simp only [encLoop, hcond, Bool.false_eq_true, if_false, hup, if_true]

/-- Invariant of the decoder loop: the layer index drops by the number of
upsample blocks, the radius halves that many times, and the output width is
floor-halved that many times. -/
theorem decLoop_char (dims : List ℕ) (l : List String) :
    ∀ (prev : Option String) (i : ℕ) (s s' : DecState),
      decLoop dims prev i s l = .ok s' →
      s'.layer = s.layer - (l.countP (fun b => strContains b "upsample") : ℤ) ∧
      s'.r = s.r * (1 / 2 : ℚ) ^ l.countP (fun b => strContains b "upsample") ∧
      s'.out_dim = s.out_dim / 2 ^ l.countP (fun b => strContains b "upsample") := by
  induction l with
  | nil =>
    intro prev i s s' h
    simp only [decLoop, Except.ok.injEq] at h
    subst h
    simp
  | cons b t ih =>
    intro prev i s s' h
    have tail_step : ∀ s1 : DecState,
        decLoop dims (some b) (i + 1) (decBlockUpdate b s1) t = .ok s' →
        s1.layer = s.layer → s1.r = s.r → s1.out_dim = s.out_dim →
        s'.layer = s.layer - ((b :: t).countP (fun x => strContains x "upsample") : ℤ) ∧
        s'.r = s.r * (1 / 2 : ℚ) ^ (b :: t).countP (fun x => strContains x "upsample") ∧
        s'.out_dim = s.out_dim / 2 ^ (b :: t).countP (fun x => strContains x "upsample") := by
      intro s1 h1 e1 e2 e3
      obtain ⟨hlayer, hr, hout⟩ := ih (some b) (i + 1) _ s' h1
      rw [decBlockUpdate_layer, e1] at hlayer
      rw [decBlockUpdate_r, e2] at hr
      rw [decBlockUpdate_out, e3] at hout
      refine ⟨?_, ?_, ?_⟩
      · rw [hlayer, List.countP_cons]
        by_cases hu : strContains b "upsample" = true
        · simp only [hu, if_true]; push_cast; ring
        · simp only [hu, if_false]
          simp only [Bool.not_eq_true] at hu
          simp [hu]
      · rw [hr, List.countP_cons]
        by_cases hu : strContains b "upsample" = true
        · simp only [hu, if_true, pow_succ]; ring
        · simp only [hu, if_false]
          simp only [Bool.not_eq_true] at hu
          simp [hu]
      · rw [hout, List.countP_cons]
        by_cases hu : strContains b "upsample" = true
        · simp only [hu, if_true, pow_succ]
          rw [Nat.div_div_eq_div_mul]
          ring_nf
        · simp only [hu, if_false]
          simp only [Bool.not_eq_true] at hu
          simp [hu]
    by_cases hpv : prevIsUp prev = true
    · cases hg : pyGet dims s.layer with
      | none => rw [decLoop_cons_concat_err dims prev i s b t hpv hg] at h; cases h
      | some d =>
        rw [decLoop_cons_concat dims prev i s b t d hpv hg] at h
        exact tail_step _ h rfl rfl rfl
    · rw [decLoop_cons_plain dims prev i s b t (Bool.not_eq_true _ ▸ hpv)] at h
      exact tail_step _ h rfl rfl rfl

/-- Step equation of the encoder loop at an ordinary (non-upsample) block
that passes the equivariance check. -/
theorem encLoop_cons_plain (b : String) (t : List String) (i : ℕ) (s : EncState)
    (hcond : (strContains b "equivariant" && !(s.out_dim % 3 == 0)) = false)
    (hup : strContains b "upsample" = false) :
    encLoop i s (b :: t) =
      encLoop (i + 1) (encBlockUpdate b (encSkipRecord b i s)) t := by
  simp only [encLoop, hcond, Bool.false_eq_true, if_false, hup]

/-- The encoder loop cannot fail on an architecture without equivariant
blocks. -/
theorem encLoop_no_error (l : List String) :
    ∀ (i : ℕ) (s : EncState),
      (∀ b ∈ l, strContains b "equivariant" = false) →
      ∃ s' brk, encLoop i s l = .ok (s', brk) := by
  induction l with
  | nil => intro i s _; exact ⟨s, false, rfl⟩
  | cons b t ih =>
    intro i s hl
    have hbe : strContains b "equivariant" = false := hl b (List.mem_cons_self b t)
    have hcond : (strContains b "equivariant" && !(s.out_dim % 3 == 0)) = false := by
      rw [hbe]; simp
    by_cases hup : strContains b "upsample" = true
    · exact ⟨_, _, encLoop_upsample_head b t i s hup hcond⟩
    · have hup2 : strContains b "upsample" = false := by
        revert hup; cases strContains b "upsample" <;> simp
      obtain ⟨s', brk, hrec⟩ :=
        ih (i + 1) (encBlockUpdate b (encSkipRecord b i s))
          (fun x hx => hl x (List.mem_cons_of_mem b hx))
      exact ⟨s', brk, by rw [encLoop_cons_plain b t i s hcond hup2]; exact hrec⟩

theorem pyGet_isSome {α : Type} (xs : List α) (i : ℤ) (h0 : 0 ≤ i)
    (hlt : i < (xs.length : ℤ)) : ∃ a, pyGet xs i = some a := by
  unfold pyGet
  rw [if_pos h0]
  have hn : i.toNat < xs.length := by omega
  exact ⟨xs.get ⟨i.toNat, hn⟩, List.get?_eq_get hn⟩

/-- The decoder loop cannot fail while the layer index stays within the
recorded skip widths: it succeeds whenever the number of upsample blocks
still to process is at most the current layer index, which itself is at most
the number of recorded widths (strictly when a concat read is pending). -/
theorem decLoop_no_error (dims : List ℕ) (l : List String) :
    ∀ (prev : Option String) (i : ℕ) (s : DecState),
      (l.countP (fun b => strContains b "upsample") : ℤ) ≤ s.layer →
      s.layer ≤ (dims.length : ℤ) →
      (prevIsUp prev = true → s.layer < (dims.length : ℤ)) →
      ∃ s', decLoop dims prev i s l = .ok s' := by
  induction l with
  | nil => intro prev i s _ _ _; exact ⟨s, rfl⟩
  | cons b t ih =>
    intro prev i s hlow hup hprev
    have hcnt : ((b :: t).countP (fun x => strContains x "upsample") : ℤ) =
        (t.countP (fun x => strContains x "upsample") : ℤ) +
          (if strContains b "upsample" then 1 else 0) := by
      rw [List.countP_cons]
      push_cast
      by_cases hu : strContains b "upsample" = true <;> simp [hu]
    have hnext : ∀ s1 : DecState, s1.layer = s.layer →
        (t.countP (fun x => strContains x "upsample") : ℤ) ≤
            (decBlockUpdate b s1).layer ∧
        (decBlockUpdate b s1).layer ≤ (dims.length : ℤ) ∧
        (prevIsUp (some b) = true → (decBlockUpdate b s1).layer < (dims.length : ℤ)) := by
      intro s1 he
      rw [decBlockUpdate_layer, he]
      have hpv2 : prevIsUp (some b) = strContains b "upsample" := rfl
      rw [hcnt] at hlow
      by_cases hu : strContains b "upsample" = true
      · simp only [hu, if_true] at hlow ⊢
        exact ⟨by omega, by omega, fun _ => by omega⟩
      · have hu2 : strContains b "upsample" = false := by
          revert hu; cases strContains b "upsample" <;> simp
        simp only [hu2, if_false, add_zero, sub_zero] at hlow ⊢
        refine ⟨by omega, by omega, fun hc => ?_⟩
        rw [hpv2, hu2] at hc
        cases hc
    by_cases hpv : prevIsUp prev = true
    · have h0 : (0 : ℤ) ≤ s.layer :=
        le_trans (by positivity) hlow
      obtain ⟨d, hd⟩ := pyGet_isSome dims s.layer h0 (hprev hpv)
      obtain ⟨h1, h2, h3⟩ := hnext
        { s with in_dim := s.in_dim + d, decoder_concats := s.decoder_concats ++ [i] } rfl
      obtain ⟨s', hs'⟩ := ih (some b) (i + 1) _ h1 h2 h3
      exact ⟨s', by rw [decLoop_cons_concat dims prev i s b t d hpv hd]; exact hs'⟩
    · have hpv2 : prevIsUp prev = false := by
        revert hpv; cases prevIsUp prev <;> simp
      obtain ⟨h1, h2, h3⟩ := hnext s rfl
      obtain ⟨s', hs'⟩ := ih (some b) (i + 1) _ h1 h2 h3
      exact ⟨s', by rw [decLoop_cons_plain dims prev i s b t hpv2]; exact hs'⟩

/-- Invariant of the decoder loop on the concat registry: indices are
strictly below the running block index, hence distinct and bounded by the
final number of decoder blocks. -/
theorem decLoop_concats_inv (dims : List ℕ) (l : List String) :
    ∀ (prev : Option String) (i : ℕ) (s s' : DecState),
      decLoop dims prev i s l = .ok s' →
      (∀ j ∈ s.decoder_concats, j < i) → s.decoder_concats.Nodup →
      s'.decoder_blocks.length = s.decoder_blocks.length + l.length ∧
      s'.decoder_concats.Nodup ∧
      (∀ j ∈ s'.decoder_concats, j < i + l.length) := by
  induction l with
  | nil =>
    intro prev i s s' h hbd hnd
    simp only [decLoop, Except.ok.injEq] at h
    subst h
    exact ⟨by simp, hnd, fun j hj => by simpa using hbd j hj⟩
  | cons b t ih =>
    intro prev i s s' h hbd hnd
    have tail_step : ∀ s1 : DecState,
        decLoop dims (some b) (i + 1) (decBlockUpdate b s1) t = .ok s' →
        s1.decoder_blocks.length = s.decoder_blocks.length →
        (∀ j ∈ s1.decoder_concats, j < i + 1) → s1.decoder_concats.Nodup →
        s'.decoder_blocks.length = s.decoder_blocks.length + (b :: t).length ∧
        s'.decoder_concats.Nodup ∧
        (∀ j ∈ s'.decoder_concats, j < i + (b :: t).length) := by
      intro s1 h1 hbl hb1 hn1
      have hb2 : ∀ j ∈ (decBlockUpdate b s1).decoder_concats, j < i + 1 := by
        rw [decBlockUpdate_concats]; exact hb1
      have hn2 : (decBlockUpdate b s1).decoder_concats.Nodup := by
        rw [decBlockUpdate_concats]; exact hn1
      obtain ⟨hlen, hnd', hbd'⟩ := ih (some b) (i + 1) _ s' h1 hb2 hn2
      refine ⟨?_, hnd', ?_⟩
      · rw [hlen, decBlockUpdate_blocks_len, hbl]
        simp only [List.length_cons]
        omega
      · intro j hj
        have := hbd' j hj
        simp only [List.length_cons]
        omega
    by_cases hpv : prevIsUp prev = true
    · cases hg : pyGet dims s.layer with
      | none => rw [decLoop_cons_concat_err dims prev i s b t hpv hg] at h; cases h
      | some d =>
        rw [decLoop_cons_concat dims prev i s b t d hpv hg] at h
        refine tail_step _ h rfl ?_ ?_
        · intro j hj
          rcases List.mem_append.mp hj with hj1 | hj1
          · exact Nat.lt_succ_of_lt (hbd j hj1)
          · simp only [List.mem_singleton] at hj1
            omega
        · simp only [List.nodup_append, List.nodup_cons, List.not_mem_nil,
            List.nodup_nil, List.disjoint_singleton]
          exact ⟨hnd, by simp, fun hmem => absurd (hbd i hmem) (lt_irrefl i)⟩
    · have hpv2 : prevIsUp prev = false := by
        revert hpv; cases prevIsUp prev <;> simp
      rw [decLoop_cons_plain dims prev i s b t hpv2] at h
      exact tail_step _ h rfl (fun j hj => Nat.lt_succ_of_lt (hbd j hj)) hnd

/-- Folding the skip-replay step over any index list starting from a `none`
stack stays `none`. -/
theorem replay_foldl_none (C : List ℕ) (L : List ℕ) :
    L.foldl (replayStep C) none = none := by
  induction L with
  | nil => rfl
  | cons a t ih => simpa [List.foldl_cons, replayStep] using ih

/-- The skip replay over an index list survives iff the number of concat hits
does not exceed the initial stack size. -/
theorem replay_foldl_char (C : List ℕ) (L : List ℕ) :
    ∀ c : ℕ, (L.foldl (replayStep C) (some c)).isSome = true ↔
      L.countP (fun i => C.contains i) ≤ c := by
  induction L with
  | nil => intro c; simp
  | cons a t ih =>
    intro c
    rw [List.foldl_cons, List.countP_cons]
    by_cases ha : C.contains a = true
    · cases c with
      | zero =>
        simp only [replayStep, ha, if_true]
        rw [replay_foldl_none]
        simp [ha]
      | succ c' =>
        simp only [replayStep, ha, if_true]
        rw [ih c']
        simp [ha]
    · have ha2 : C.contains a = false := by
        revert ha; cases C.contains a <;> simp
      simp only [replayStep, ha2, Bool.false_eq_true, if_false]
      rw [ih c]
      simp [ha2]

/-- Counting the members of a bounded duplicate-free index list inside
`range n` gives its length. -/
theorem countP_range_contains (C : List ℕ) (n : ℕ) (hnd : C.Nodup)
    (hb : ∀ j ∈ C, j < n) :
    (List.range n).countP (fun i => C.contains i) = C.length := by
  rw [List.countP_eq_length_filter]
  have hperm : List.Perm ((List.range n).filter (fun i => C.contains i)) C := by
    rw [List.perm_ext_iff_of_nodup (List.Nodup.filter _ (List.nodup_range n)) hnd]
    intro a
    simp only [List.mem_filter, List.mem_range]
    constructor
    · intro ⟨_, hc⟩
      exact List.mem_of_elem_eq_true hc
    · intro hmem
      exact ⟨hb a hmem, List.elem_eq_true_of_mem hmem⟩
  exact hperm.length_eq

/-- Anatomy of `buildModel`: encoder run, decoder run over the region from
`start_i`, then the assembled model record. -/
theorem buildModel_eq (cfg : Config) (lbl_values ign_lbls : List ℤ) :
    buildModel cfg lbl_values ign_lbls =
      match encLoop 0 (initState cfg) cfg.architecture with
      | .error e => .error e
      | .ok (se, _) =>
        match decLoop se.encoder_skip_dims none 0
            { layer := se.layer, r := se.r,
              in_dim := se.in_dim_3d + se.in_dim_2d,
              out_dim := se.out_dim,
              decoder_blocks := [], decoder_concats := [] }
            (cfg.architecture.drop (firstUpsampleIdx cfg.architecture)) with
        | .error e => .error e
        | .ok sd =>
          .ok { encoder_skips := se.encoder_skips
                encoder_skip_dims := se.encoder_skip_dims
                encoder_blocks_3d := se.encoder_blocks_3d
                encoder_blocks_2d := se.encoder_blocks_2d
                decoder_blocks := sd.decoder_blocks
                decoder_concats := sd.decoder_concats
                final_layer := sd.layer
                final_r := sd.r
                final_out_dim := sd.out_dim
                head_mlp_in := sd.out_dim
                head_mlp_out := cfg.first_features_dim
                numC := (lbl_values.length : ℤ) - (ign_lbls.length : ℤ)
                valid_labels :=
                  pySort (lbl_values.filter (fun c => !(ign_lbls.contains c)))
                deform_fitting_mode := cfg.deform_fitting_mode } := by
  rw [buildModel]

theorem two_pow_mul_half_pow (N M : ℕ) :
    (2 : ℚ) ^ N * (1 / 2 : ℚ) ^ M = (2 : ℚ) ^ ((N : ℤ) - (M : ℤ)) := by
  rw [zpow_sub₀ (by norm_num : (2 : ℚ) ≠ 0), zpow_natCast, zpow_natCast,
    one_div, inv_pow, div_eq_mul_inv]

/-- Characterization of a full encoder run: the final layer index is the
number of processed pooling/strided transitions `N`, the radius and output
width have doubled `N` times from their initial values, and at least `N`
skip widths have been recorded. -/
theorem enc_run_char (cfg : Config) (se : EncState) (brk : Bool)
    (h : encLoop 0 (initState cfg) cfg.architecture = .ok (se, brk)) :
    se.layer = (encPoolCount cfg.architecture : ℤ) ∧
    se.r = cfg.first_subsampling_dl * cfg.conv_radius * 2 ^ encPoolCount cfg.architecture ∧
    se.out_dim = cfg.first_features_dim * 2 ^ encPoolCount cfg.architecture ∧
    encPoolCount cfg.architecture ≤ se.encoder_skip_dims.length := by
  have hsplit :
      cfg.architecture =
        List.takeWhile (fun b => !strContains b "upsample") cfg.architecture ++
          List.dropWhile (fun b => !strContains b "upsample") cfg.architecture :=
    (List.takeWhile_append_dropWhile _ _).symm
  rw [hsplit] at h
  have hTprop : ∀ b ∈ List.takeWhile (fun b => !strContains b "upsample") cfg.architecture,
      strContains b "upsample" = false := by
    intro b hb
    have hpb := List.mem_takeWhile_imp hb
    simpa using hpb
  have hmono :
      encPoolCount cfg.architecture ≤
        (List.takeWhile (fun b => !strContains b "upsample") cfg.architecture).countP
          (fun b => isSkipBlock b) := by
    refine List.countP_mono_left (fun b _ hb => ?_)
    simp only [isSkipBlock]
    rcases Bool.or_eq_true_iff.mp hb with h1 | h1 <;> simp [h1]
  cases hT : encLoop 0 (initState cfg)
      (List.takeWhile (fun b => !strContains b "upsample") cfg.architecture) with
  | error e =>
    rw [encLoop_append_err _ _ _ _ _ hT] at h; cases h
  | ok pr =>
    obtain ⟨sT, brkT⟩ := pr
    cases brkT with
    | true =>
      obtain ⟨hbrk, -, -, -, -⟩ := encLoop_no_upsample _ 0 _ sT true hTprop hT
      cases hbrk
    | false =>
      obtain ⟨-, hlayerT, hrT, houtT, hdimsT⟩ :=
        encLoop_no_upsample _ 0 _ sT false hTprop hT
      simp only [initState, List.length_nil, Nat.zero_add, zero_add] at hlayerT hrT houtT hdimsT
      rw [encLoop_append_ok _ _ _ _ _ hT] at h
      cases hD : List.dropWhile (fun b => !strContains b "upsample") cfg.architecture with
      | nil =>
        rw [hD] at h
        simp only [encLoop, Except.ok.injEq, Prod.mk.injEq] at h
        obtain ⟨rfl, rfl⟩ := h
        exact ⟨hlayerT, hrT, houtT, by omega⟩
      | cons d D' =>
        have hud : strContains d "upsample" = true := by
          have := dropWhile_cons_head _ _ _ _ hD
          simpa using this
        rw [hD] at h
        by_cases hcond : (strContains d "equivariant" && !(sT.out_dim % 3 == 0)) = true
        · rw [show encLoop
              (0 + (List.takeWhile (fun b => !strContains b "upsample") cfg.architecture).length)
              sT (d :: D') = Except.error
                "Equivariant block but features dimension is not a factor of 3" from by
            simp only [encLoop, hcond, if_true]] at h
          cases h
        · have hcond2 : (strContains d "equivariant" && !(sT.out_dim % 3 == 0)) = false := by
            revert hcond
            cases strContains d "equivariant" && !(sT.out_dim % 3 == 0) <;> simp
          rw [encLoop_upsample_head d D' _ sT hud hcond2] at h
          simp only [Except.ok.injEq, Prod.mk.injEq] at h
          obtain ⟨rfl, rfl⟩ := h
          have hk : isSkipBlock d = true := by simp [isSkipBlock, hud]
          refine ⟨?_, ?_, ?_, ?_⟩
          · rw [encSkipRecord_layer]; exact hlayerT
          · rw [encSkipRecord_r]; exact hrT
          · rw [encSkipRecord_out]; exact houtT
          · rw [encSkipRecord_skipDims, if_pos hk, List.length_append]
            simp only [List.length_cons, List.length_nil]
            omega

theorem remapOne_rangeInt (C : ℕ) (l : ℤ) :
    remapOne (rangeInt C) l = if 0 ≤ l ∧ l < (C : ℤ) then l else -1 := by
  rcases remapOne_spec (rangeInt C) l with ⟨heq, hmem⟩ | ⟨i, hi, heq, hget⟩
  · rw [heq, eq_comm, if_neg]
    intro ⟨h0, hC⟩
    refine hmem ?_
    have : l = ((l.toNat : ℕ) : ℤ) := (Int.toNat_of_nonneg h0).symm
    rw [this]
    simp only [rangeInt, List.mem_map]
    exact ⟨l.toNat, List.mem_range.mpr (by omega), rfl⟩
  · have hC : i < C := by
      simpa only [rangeInt, List.length_map, List.length_range] using hi
    have hl : l = (i : ℤ) := by
      have hsome : (rangeInt C).get? i = some ((i : ℕ) : ℤ) := by
        rw [rangeInt, List.get?_map, List.get?_range hC]; rfl
      rw [hsome] at hget
      exact (Option.some_inj.mp hget).symm
    rw [heq, hl, if_pos]
    exact ⟨Int.ofNat_nonneg i, by exact_mod_cast hC⟩

theorem remapOne_rangeInt_idem (C : ℕ) (l : ℤ) :
    remapOne (rangeInt C) (remapOne (rangeInt C) l) = remapOne (rangeInt C) l := by
  rw [remapOne_rangeInt C l]
  by_cases h : 0 ≤ l ∧ l < (C : ℤ)
  · rw [if_pos h, remapOne_rangeInt, if_pos h]
  · rw [if_neg h, remapOne_rangeInt, if_neg (by omega)]

/-! ### Geometry of the repulsion term -/

theorem exists_idx_of_mem_removeIdx {α : Type} (l : List α) (i : ℕ) (q d : α)
    (h : q ∈ removeIdx l i) :
    ∃ j, j < l.length ∧ j ≠ i ∧ l.getD j d = q := by
  unfold removeIdx at h
  rcases List.mem_append.mp h with h1 | h1
  · obtain ⟨n, hn, he⟩ := List.mem_iff_getElem.mp h1
    have hn2 : n < i ∧ n < l.length := by
      simp only [List.length_take] at hn; omega
    refine ⟨n, hn2.2, by omega, ?_⟩
    rw [List.getD_eq_getElem l d hn2.2, ← List.getElem_take l, he]
  · obtain ⟨n, hn, he⟩ := List.mem_iff_getElem.mp h1
    have hn2 : i + 1 + n < l.length := by
      simp only [List.length_drop] at hn; omega
    refine ⟨i + 1 + n, hn2, by omega, ?_⟩
    rw [List.getD_eq_getElem l d hn2, ← List.getElem_drop l, he]

theorem getD_mem_removeIdx {α : Type} (l : List α) (i j : ℕ) (d : α)
    (hj : j < l.length) (hne : j ≠ i) : l.getD j d ∈ removeIdx l i := by
  unfold removeIdx
  rcases Nat.lt_or_ge j i with hji | hji
  · refine List.mem_append.mpr (Or.inl ?_)
    refine List.mem_iff_getElem.mpr ⟨j, ?_, ?_⟩
    · simp only [List.length_take]; omega
    · rw [List.getElem_take l, List.getD_eq_getElem l d hj]
  · have hji2 : i < j := by omega
    refine List.mem_append.mpr (Or.inr ?_)
    refine List.mem_iff_getElem.mpr ⟨j - (i + 1), ?_, ?_⟩
    · simp only [List.length_drop]; omega
    · rw [List.getElem_drop l, List.getD_eq_getElem l d hj]
      congr 1
      omega

theorem repRow_nonneg (e : ℝ) (row : List Pt) (i : ℕ) : 0 ≤ repRow e row i := by
  refine List.sum_nonneg ?_
  intro x hx
  obtain ⟨q, -, rfl⟩ := List.mem_map.mp hx
  exact sq_nonneg _

theorem l1Mean_nonneg (xs : List ℝ) : 0 ≤ l1Mean xs := by
  unfold l1Mean
  refine div_nonneg (List.sum_nonneg ?_) (by positivity)
  intro x hx
  obtain ⟨q, -, rfl⟩ := List.mem_map.mp hx
  exact abs_nonneg _

theorem sqDist3_comm (q p : Pt) : sqDist3 q p = sqDist3 p q := by
  unfold sqDist3; ring

theorem dist3_comm (q p : Pt) : dist3 q p = dist3 p q := by
  unfold dist3; rw [sqDist3_comm]

/-! ## Claims -/

/-- Claim C10: the label remapping computed inside `loss` and the label
remapping computed inside `accuracy` are the same function: for every label
tensor and every valid-label list, the two targets coincide. -/
theorem C10_loss_accuracy_same_remap (valid_labels labels : List ℤ) :
    lossTarget valid_labels labels = accuracyTarget valid_labels labels := rfl

/-- Claim C4, counterexample: on the example architecture the builder records
*two* skip taps, `encoder_skips = [2, 4]` (the strided block *and* the
upsample block), not exactly one at the strided block's index. -/
theorem C4_counterexample :
    skipsOf (buildModel cfgExample lbl0 ign0) = [2, 4] ∧ ([2, 4] : List ℕ) ≠ [2] := by
  decide

/-- Claim C4, amended: the example architecture records exactly two skip taps
(at the strided block index 2 and at the upsample block index 4), exactly one
decoder concat marker at the decoder block immediately after the upsample
block, and the decoder's final output width (the head's input width) equals
`w0 = first_features_dim`. -/
theorem C4_example_architecture :
    skipsOf (buildModel cfgExample lbl0 ign0) = [2, 4] ∧
    concatsOf (buildModel cfgExample lbl0 ign0) = [1] ∧
    outOf (buildModel cfgExample lbl0 ign0) = cfgExample.first_features_dim := by
  decide

/-- Claim C2, counterexample: for `["upsample", "unary"]` with `w0 = 3`
(`N = 0` pooling transitions, `M = 1` upsampling transitions) the final
output width is `3 // 2 = 1`, whereas the claimed law `w0 * 2^(N - M)`
gives `3/2`. -/
theorem C2_counterexample :
    encPoolCount cfgUpUnary.architecture = 0 ∧
    decUpCount cfgUpUnary.architecture = 1 ∧
    cfgUpUnary.first_features_dim = 3 ∧
    outOf (buildModel cfgUpUnary lbl0 ign0) = 1 ∧
    ((1 : ℚ) ≠ (3 : ℚ) * (2 : ℚ) ^ ((0 : ℤ) - 1)) :=
  ⟨by decide, by decide, by decide, by decide, by norm_num⟩

/-- Claim C2, amended: for every configuration whose construction succeeds,
with `N` the pooling/strided transitions processed (blocks before the first
upsample block) and `M` the upsampling transitions processed (upsample blocks
of the decoder region), the final layer index is `N - M`, the final radius is
the initial radius times `2^(N-M)` (exactly, as a rational), and — *provided
`M ≤ N`* — the final output width is `first_features_dim * 2^(N-M)`.  (For
`M > N` the width law fails because each upsampling transition floor-halves
the integer width; see the counterexample.) -/
theorem C2_radius_width_law (cfg : Config) (lbl_values ign_lbls : List ℤ)
    (h : (buildModel cfg lbl_values ign_lbls).isOk = true) :
    layerOf (buildModel cfg lbl_values ign_lbls) =
      (encPoolCount cfg.architecture : ℤ) - (decUpCount cfg.architecture : ℤ) ∧
    radiusOf (buildModel cfg lbl_values ign_lbls) =
      cfg.first_subsampling_dl * cfg.conv_radius *
        (2 : ℚ) ^ ((encPoolCount cfg.architecture : ℤ) - (decUpCount cfg.architecture : ℤ)) ∧
    (decUpCount cfg.architecture ≤ encPoolCount cfg.architecture →
      outOf (buildModel cfg lbl_values ign_lbls) =
        cfg.first_features_dim *
          2 ^ (encPoolCount cfg.architecture - decUpCount cfg.architecture)) := by
  cases hE : encLoop 0 (initState cfg) cfg.architecture with
  | error e => rw [buildModel_eq, hE] at h; simp [Except.isOk, Except.toBool] at h
  | ok pr =>
    obtain ⟨se, brk⟩ := pr
    cases hD : decLoop se.encoder_skip_dims none 0
        { layer := se.layer, r := se.r,
          in_dim := se.in_dim_3d + se.in_dim_2d,
          out_dim := se.out_dim,
          decoder_blocks := [], decoder_concats := [] }
        (cfg.architecture.drop (firstUpsampleIdx cfg.architecture)) with
    | error e =>
      rw [buildModel_eq, hE] at h
      simp only [] at h
      rw [hD] at h
      simp [Except.isOk, Except.toBool] at h
    | ok sd =>
      have hm : layerOf (buildModel cfg lbl_values ign_lbls) = sd.layer ∧
          radiusOf (buildModel cfg lbl_values ign_lbls) = sd.r ∧
          outOf (buildModel cfg lbl_values ign_lbls) = sd.out_dim := by
        rw [buildModel_eq, hE]
        simp only []
        rw [hD]
        exact ⟨rfl, rfl, rfl⟩
      obtain ⟨hm1, hm2, hm3⟩ := hm
      obtain ⟨hlay, hr, hout, -⟩ := enc_run_char cfg se brk hE
      obtain ⟨hdl, hdr, hdo⟩ := decLoop_char _ _ none 0 _ sd hD
      refine ⟨?_, ?_, ?_⟩
      · rw [hm1, hdl]
        simp only [hlay]
        rfl
      · rw [hm2, hdr]
        show se.r * (1 / 2 : ℚ) ^ decUpCount cfg.architecture = _
        rw [hr, mul_assoc, two_pow_mul_half_pow]
      · intro hMN
        rw [hm3, hdo]
        show se.out_dim / 2 ^ decUpCount cfg.architecture = _
        rw [hout]
        have hsplit : cfg.first_features_dim * 2 ^ encPoolCount cfg.architecture =
            cfg.first_features_dim *
              2 ^ (encPoolCount cfg.architecture - decUpCount cfg.architecture) *
              2 ^ decUpCount cfg.architecture := by
          rw [mul_assoc, ← pow_add]
          congr 2
          omega
        rw [hsplit, Nat.mul_div_cancel _ (Nat.pos_pow_of_pos _ (by norm_num))]

/-- Claim C2, witness: the amended law at the example architecture
(`N = M = 1`): final layer index 0, final radius `1`, final width `8`. -/
theorem C2_witness :
    layerOf (buildModel cfgExample lbl0 ign0) = 0 ∧
    radiusOf (buildModel cfgExample lbl0 ign0) = 1 ∧
    outOf (buildModel cfgExample lbl0 ign0) = 8 := by
  obtain ⟨h1, h2, h3⟩ := C2_radius_width_law cfgExample lbl0 ign0 (by decide)
  have hN : encPoolCount cfgExample.architecture = 1 := by decide
  have hM : decUpCount cfgExample.architecture = 1 := by decide
  rw [hN, hM] at h1 h2 h3
  refine ⟨by simpa using h1, ?_, ?_⟩
  · rw [h2]
    show cfgExample.first_subsampling_dl * cfgExample.conv_radius * _ = _
    norm_num [cfgExample]
  · have := h3 le_rfl
    simpa [cfgExample] using this

/-- Claim C5, counterexample: for `["upsample", "unary"]` the number of
upsampling transitions (`M = 1`) exceeds the number of pooling transitions
(`N = 0`), yet construction *succeeds* (Python's negative list indexing makes
`encoder_skip_dims[-1]` a valid read), refuting "construction succeeds iff
`M ≤ N`". -/
theorem C5_counterexample :
    (buildModel cfgUpUnary lbl0 ign0).isOk = true ∧
    encPoolCount cfgUpUnary.architecture < decUpCount cfgUpUnary.architecture := by
  decide

/-- Claim C5, amended: construction succeeds whenever `M ≤ N` (and no
equivariance violation can occur); the "iff" of the claim fails because for
`M > N` construction may still succeed through Python's negative indexing
(see the counterexample).  The deterministic pop-from-empty underflow the
claim describes lives in the *forward pass*: for every successfully
constructed model, the skip replay of `forward` survives exactly when the
number of decoder concat markers does not exceed the number of skip taps the
encoder passes capture. -/
theorem C5_construction_and_replay (cfg : Config) (lbl_values ign_lbls : List ℤ) :
    ((decUpCount cfg.architecture ≤ encPoolCount cfg.architecture ∧
        (∀ b ∈ cfg.architecture, strContains b "equivariant" = false)) →
      (buildModel cfg lbl_values ign_lbls).isOk = true) ∧
    ((buildModel cfg lbl_values ign_lbls).isOk = true →
      (skipReplayOf (buildModel cfg lbl_values ign_lbls) = true ↔
        (concatsOf (buildModel cfg lbl_values ign_lbls)).length ≤
          capturedOf (buildModel cfg lbl_values ign_lbls))) := by
  constructor
  · rintro ⟨hMN, hne⟩
    obtain ⟨se, brk, hE⟩ := encLoop_no_error cfg.architecture 0 (initState cfg) hne
    obtain ⟨hlay, -, -, hdims⟩ := enc_run_char cfg se brk hE
    have hlo : ((cfg.architecture.drop (firstUpsampleIdx cfg.architecture)).countP
        (fun b => strContains b "upsample") : ℤ) ≤ se.layer := by
      show (decUpCount cfg.architecture : ℤ) ≤ se.layer
      rw [hlay]
      exact_mod_cast hMN
    have hhi : se.layer ≤ (se.encoder_skip_dims.length : ℤ) := by
      rw [hlay]
      exact_mod_cast hdims
    obtain ⟨sd, hD⟩ := decLoop_no_error se.encoder_skip_dims
      (cfg.architecture.drop (firstUpsampleIdx cfg.architecture)) none 0
      { layer := se.layer, r := se.r,
        in_dim := se.in_dim_3d + se.in_dim_2d,
        out_dim := se.out_dim,
        decoder_blocks := [], decoder_concats := [] }
      hlo hhi (fun hc => by cases hc)
    rw [buildModel_eq, hE]
    simp only []
    rw [hD]
    rfl
  · intro hOk
    cases hE : encLoop 0 (initState cfg) cfg.architecture with
    | error e =>
      rw [buildModel_eq, hE] at hOk
      simp [Except.isOk, Except.toBool] at hOk
    | ok pr =>
      obtain ⟨se, brk⟩ := pr
      cases hD : decLoop se.encoder_skip_dims none 0
          { layer := se.layer, r := se.r,
            in_dim := se.in_dim_3d + se.in_dim_2d,
            out_dim := se.out_dim,
            decoder_blocks := [], decoder_concats := [] }
          (cfg.architecture.drop (firstUpsampleIdx cfg.architecture)) with
      | error e =>
        rw [buildModel_eq, hE] at hOk
        simp only [] at hOk
        rw [hD] at hOk
        simp [Except.isOk, Except.toBool] at hOk
      | ok sd =>
        obtain ⟨hlen, hnd, hbd⟩ := decLoop_concats_inv se.encoder_skip_dims
          (cfg.architecture.drop (firstUpsampleIdx cfg.architecture)) none 0 _ sd hD
          (fun j hj => absurd hj (List.not_mem_nil j)) List.nodup_nil
        simp only [List.length_nil, Nat.zero_add, zero_add] at hlen hbd
        have hbd2 : ∀ j ∈ sd.decoder_concats, j < sd.decoder_blocks.length := by
          intro j hj
          rw [hlen]
          exact hbd j hj
        have hmain : skipReplay
            { encoder_skips := se.encoder_skips
              encoder_skip_dims := se.encoder_skip_dims
              encoder_blocks_3d := se.encoder_blocks_3d
              encoder_blocks_2d := se.encoder_blocks_2d
              decoder_blocks := sd.decoder_blocks
              decoder_concats := sd.decoder_concats
              final_layer := sd.layer
              final_r := sd.r
              final_out_dim := sd.out_dim
              head_mlp_in := sd.out_dim
              head_mlp_out := cfg.first_features_dim
              numC := (lbl_values.length : ℤ) - (ign_lbls.length : ℤ)
              valid_labels := pySort (lbl_values.filter (fun c => !(ign_lbls.contains c)))
              deform_fitting_mode := cfg.deform_fitting_mode } = true ↔
            sd.decoder_concats.length ≤ capturedSkips
            { encoder_skips := se.encoder_skips
              encoder_skip_dims := se.encoder_skip_dims
              encoder_blocks_3d := se.encoder_blocks_3d
              encoder_blocks_2d := se.encoder_blocks_2d
              decoder_blocks := sd.decoder_blocks
              decoder_concats := sd.decoder_concats
              final_layer := sd.layer
              final_r := sd.r
              final_out_dim := sd.out_dim
              head_mlp_in := sd.out_dim
              head_mlp_out := cfg.first_features_dim
              numC := (lbl_values.length : ℤ) - (ign_lbls.length : ℤ)
              valid_labels := pySort (lbl_values.filter (fun c => !(ign_lbls.contains c)))
              deform_fitting_mode := cfg.deform_fitting_mode } := by
          unfold skipReplay
          rw [replay_foldl_char]
          rw [countP_range_contains sd.decoder_concats sd.decoder_blocks.length hnd hbd2]
        rw [buildModel_eq, hE]
        simp only []
        rw [hD]
        exact hmain

/-- Claim C5, witness: the amended statement at the example architecture:
`M = 1 ≤ N = 1`, no equivariant block, construction succeeds, and its skip
replay survives (1 concat against 1 captured tap). -/
theorem C5_witness :
    (buildModel cfgExample lbl0 ign0).isOk = true ∧
    (skipReplayOf (buildModel cfgExample lbl0 ign0) = true ↔
      (concatsOf (buildModel cfgExample lbl0 ign0)).length ≤
        capturedOf (buildModel cfgExample lbl0 ign0)) :=
  ⟨(C5_construction_and_replay cfgExample lbl0 ign0).1 ⟨by decide, by decide⟩,
   (C5_construction_and_replay cfgExample lbl0 ign0).2 (by decide)⟩

/-- Claim C6, counterexample: a model with the unimplemented `point2plane`
fitting mode constructs successfully — the mode is not validated at
construction time, so the error is not "raised immediately at model
construction". -/
theorem C6_counterexample :
    cfgP2P.deform_fitting_mode = "point2plane" ∧
    (buildModel cfgP2P lbl0 ign0).isOk = true := by
  decide

/-- Claim C6, amended: selecting the unimplemented `point2plane` mode or any
unknown mode is *not* validated at construction — construction succeeds or
fails independently of the stored mode — and is fatal only when the loss is
computed: the regularization dispatch of `loss` raises the descriptive
`ValueError` for every mode other than `point2point`. -/
theorem C6_mode_fatal_at_loss_time (cfg : Config) (lbl_values ign_lbls : List ℤ)
    (mode : String) (regVal : ℚ) (hmode : mode ≠ "point2point") :
    (deformRegBranch mode regVal).isOk = false ∧
    deformRegBranch "point2plane" regVal =
      .error "point2plane fitting mode not implemented yet." ∧
    (buildModel { cfg with deform_fitting_mode := mode } lbl_values ign_lbls).isOk =
      (buildModel cfg lbl_values ign_lbls).isOk := by
  refine ⟨?_, ?_, ?_⟩
  · unfold deformRegBranch
    rw [if_neg hmode]
    split <;> rfl
  · rfl
  · rw [buildModel_eq, buildModel_eq]
    have h1 : initState { cfg with deform_fitting_mode := mode } = initState cfg := rfl
    have h2 : ({ cfg with deform_fitting_mode := mode } : Config).architecture =
        cfg.architecture := rfl
    rw [h1, h2]
    cases hE : encLoop 0 (initState cfg) cfg.architecture with
    | error e => rfl
    | ok pr =>
      obtain ⟨se, brk⟩ := pr
      simp only []
      cases hD : decLoop se.encoder_skip_dims none 0
          { layer := se.layer, r := se.r,
            in_dim := se.in_dim_3d + se.in_dim_2d,
            out_dim := se.out_dim,
            decoder_blocks := [], decoder_concats := [] }
          (cfg.architecture.drop (firstUpsampleIdx cfg.architecture)) with
      | error e => rfl
      | ok sd => rfl

/-- Claim C6, witness: the amended statement at `point2plane`. -/
theorem C6_witness :
    (deformRegBranch "point2plane" 0).isOk = false ∧
    deformRegBranch "point2plane" 0 =
      .error "point2plane fitting mode not implemented yet." ∧
    (buildModel { cfgExample with deform_fitting_mode := "point2plane" } lbl0 ign0).isOk =
      (buildModel cfgExample lbl0 ign0).isOk :=
  C6_mode_fatal_at_loss_time cfgExample lbl0 ign0 "point2plane" 0 (by decide)

/-- Claim C1, counterexample: in `["upsample", "pool"]` the block at index 1
contains `'pool'`, but the builder records `encoder_skips = [0]` only — the
encoder loop broke at the first upsample block and never visited index 1, so
no skip tap was recorded for it. -/
theorem C1_counterexample :
    strContains "pool" "pool" = true ∧
    cfgUpPool.architecture.get? 1 = some "pool" ∧
    skipsOf (buildModel cfgUpPool lbl0 ign0) = [0] ∧
    ¬((1 : ℕ) ∈ ([0] : List ℕ)) := by
  decide

/-- Claim C3: if the encoder loop reaches a block containing `'equivariant'`
while the current output width is not divisible by 3, the whole construction
fails immediately with the configuration `ValueError` — it never proceeds
silently past such a block.  "Reaches" means: running the loop over the
first `i` blocks succeeded without hitting the upsample break. -/
theorem C3_equivariant_bad_width_fails (cfg : Config) (lbl_values ign_lbls : List ℤ)
    (i : ℕ) (b : String) (s : EncState)
    (hreach : encLoop 0 (initState cfg) (cfg.architecture.take i) = .ok (s, false))
    (hget : cfg.architecture[i]? = some b)
    (heqv : strContains b "equivariant" = true)
    (hbad : ¬ s.out_dim % 3 = 0) :
    buildModel cfg lbl_values ign_lbls =
      .error "Equivariant block but features dimension is not a factor of 3" := by
  obtain ⟨hlt, hb⟩ := List.getElem?_eq_some.mp hget
  have hlen : (cfg.architecture.take i).length = i := by
    simp only [List.length_take]; omega
  have harch : cfg.architecture =
      cfg.architecture.take i ++ (b :: cfg.architecture.drop (i + 1)) := by
    conv_lhs => rw [← List.take_append_drop i cfg.architecture]
    rw [List.drop_eq_getElem_cons hlt, hb]
  have hfull : encLoop 0 (initState cfg) cfg.architecture =
      .error "Equivariant block but features dimension is not a factor of 3" := by
    rw [harch, encLoop_append, hreach]
    show encLoop (0 + (cfg.architecture.take i).length) s
        (b :: cfg.architecture.drop (i + 1)) = _
    rw [hlen, Nat.zero_add]
    have hcond : (s.out_dim % 3 == 0) = false := beq_eq_false_iff_ne.mpr hbad
    simp [encLoop, heqv, hcond]
  unfold buildModel
  rw [hfull]

/-- Claim C3, witness: a one-block `'equivariant'` architecture with
`first_features_dim = 4` (not divisible by 3) fails construction with the
`ValueError`. -/
theorem C3_witness :
    buildModel cfgEquiv lbl0 ign0 =
      .error "Equivariant block but features dimension is not a factor of 3" :=
  C3_equivariant_bad_width_fails cfgEquiv lbl0 ign0 0 "equivariant_simple"
    (initState cfgEquiv) rfl rfl (by decide) (by decide)

/-- Claim C1, amended: for every block the *encoder loop reaches* (the claim as
stated fails for skip-named blocks occurring after the first upsample block,
which the loop never visits) whose descriptor contains `'pool'`, `'strided'`,
`'upsample'` or `'global'` and which passes the equivariance check, the
builder appends the block's index to `encoder_skips` and the current combined
width `in_dim_3d + in_dim_2d` to `encoder_skip_dims` before constructing the
block. -/
theorem C1_skip_tap_recorded (cfg : Config) (i : ℕ) (b : String) (s : EncState)
    (hreach : encLoop 0 (initState cfg) (cfg.architecture.take i) = .ok (s, false))
    (hget : cfg.architecture[i]? = some b)
    (hskip : isSkipBlock b = true)
    (hok : (strContains b "equivariant" && !(s.out_dim % 3 == 0)) = false) :
    (encLoop 0 (initState cfg) (cfg.architecture.take (i + 1))).map
        (fun p => (p.1.encoder_skips, p.1.encoder_skip_dims)) =
      .ok (s.encoder_skips ++ [i],
           s.encoder_skip_dims ++ [s.in_dim_3d + s.in_dim_2d]) := by
  obtain ⟨hlt, _⟩ := List.getElem?_eq_some.mp hget
  have hlen : (cfg.architecture.take i).length = i := by
    simp only [List.length_take]; omega
  rw [List.take_succ, hget]
  simp only [Option.toList_some]
  rw [encLoop_append, hreach]
  show (encLoop (0 + (cfg.architecture.take i).length) s [b]).map _ = _
  rw [hlen, Nat.zero_add]
  simp only [encLoop, hok, Bool.false_eq_true, if_false]
  split
  · simp [Except.map, encSkipRecord_skips, encSkipRecord_skipDims, hskip]
  · simp [encLoop, Except.map, encBlockUpdate_skips, encBlockUpdate_skipDims,
      encSkipRecord_skips, encSkipRecord_skipDims, hskip]

/-- Claim C1, witness: the amended statement at the one-block architecture
`["pool"]`: the tap is recorded at index 0 with width `4 + 65 = 69`. -/
theorem C1_witness :
    (encLoop 0 (initState cfgPool) (cfgPool.architecture.take 1)).map
        (fun p => (p.1.encoder_skips, p.1.encoder_skip_dims)) = .ok ([0], [69]) := by
  have h := C1_skip_tap_recorded cfgPool 0 "pool" (initState cfgPool)
    rfl rfl (by decide) (by decide)
  simpa using h

/-- Claim C7, counterexample: with valid-label list `[5, 7]` remapping is not
idempotent: the label `5` maps to `0` once, but remapping the result again
maps `0` (not a valid label) to the sentinel `-1`. -/
theorem C7_counterexample :
    lossTarget [5, 7] (lossTarget [5, 7] [5]) ≠ lossTarget [5, 7] [5] := by
  decide

/-- Claim C7, amended: label remapping is a total function — every entry of the
remapped target is either the sentinel `-1` or an index in `[0, C-1]`
(`C` the valid-label count) that points at an occurrence of the original
label in the valid-label list.  Idempotence however only holds for special
valid-label lists; it does hold whenever the valid labels are exactly
`[0, ..., C-1]` (labels already dense). -/
theorem C7_remap_total_and_dense_idempotent (valid_labels labels : List ℤ) :
    (∀ t ∈ lossTarget valid_labels labels,
        t = -1 ∨ (0 ≤ t ∧ t < (valid_labels.length : ℤ))) ∧
    (valid_labels = rangeInt valid_labels.length →
      lossTarget valid_labels (lossTarget valid_labels labels) =
        lossTarget valid_labels labels) := by
  constructor
  · intro t ht
    rw [lossTarget_eq_map] at ht
    obtain ⟨l, _, rfl⟩ := List.mem_map.mp ht
    rcases remapOne_spec valid_labels l with ⟨heq, _⟩ | ⟨i, hi, heq, _⟩
    · exact Or.inl heq
    · exact Or.inr ⟨heq ▸ Int.ofNat_nonneg i, heq ▸ (by exact_mod_cast hi)⟩
  · intro h
    rw [lossTarget_eq_map, lossTarget_eq_map, List.map_map]
    refine List.map_congr_left (fun l _ => ?_)
    have := remapOne_rangeInt_idem valid_labels.length l
    rw [← h] at this
    exact this

/-- Claim C7, witness: the amended statement at the dense valid-label list
`[0, 1]` and labels `[1, 5]`. -/
theorem C7_witness :
    (∀ t ∈ lossTarget [0, 1] [1, 5],
        t = -1 ∨ (0 ≤ t ∧ t < (([0, 1] : List ℤ).length : ℤ))) ∧
    lossTarget [0, 1] (lossTarget [0, 1] [1, 5]) = lossTarget [0, 1] [1, 5] :=
  ⟨(C7_remap_total_and_dense_idempotent [0, 1] [1, 5]).1,
   (C7_remap_total_and_dense_idempotent [0, 1] [1, 5]).2 (by decide)⟩

/-- Claim C8: for every deformable kernel-point configuration (batch rows of
`K` points each), the repulsion term of `p2p_fitting_regularizer` is zero
whenever all pairwise distances between the normalized kernel points exceed
the repulsion extent, and strictly positive whenever at least one pair is
strictly closer than the extent: differences above the extent are clipped to
zero before squaring, so only violations contribute. -/
theorem C8_repulsion_sign (K : ℕ) (kpExt repulse : ℝ) (rows : List (List Pt))
    (hK : ∀ row ∈ rows, row.length = K) (hrows : rows ≠ []) :
    ((∀ row ∈ rows, ∀ i j : ℕ, i < K → j < K → i ≠ j →
        repulse < dist3 ((row.map (scalePt kpExt)).getD i ((0:ℝ),(0:ℝ),(0:ℝ)))
          ((row.map (scalePt kpExt)).getD j ((0:ℝ),(0:ℝ),(0:ℝ)))) →
      repulsiveLoss K kpExt repulse rows = 0) ∧
    ((∃ row, row ∈ rows ∧ ∃ i j : ℕ, i < K ∧ j < K ∧ i ≠ j ∧
        dist3 ((row.map (scalePt kpExt)).getD i ((0:ℝ),(0:ℝ),(0:ℝ)))
          ((row.map (scalePt kpExt)).getD j ((0:ℝ),(0:ℝ),(0:ℝ))) < repulse) →
      0 < repulsiveLoss K kpExt repulse rows) := by
  constructor
  · intro hfar
    unfold repulsiveLoss
    refine List.sum_eq_zero ?_
    intro x hx
    obtain ⟨i, hiK, rfl⟩ := List.mem_map.mp hx
    have hiK2 : i < K := List.mem_range.mp hiK
    have hz : l1Mean ((rows.map (fun row => row.map (scalePt kpExt))).map
        (fun row => repRow repulse row i)) = 0 := by
      unfold l1Mean
      have hsum0 : (((rows.map (fun row => row.map (scalePt kpExt))).map
          (fun row => repRow repulse row i)).map (fun x => |x|)).sum = 0 := by
        refine List.sum_eq_zero ?_
        intro y hy
        obtain ⟨v, hv, rfl⟩ := List.mem_map.mp hy
        obtain ⟨row2, hrow2, rfl⟩ := List.mem_map.mp hv
        obtain ⟨row, hrow, rfl⟩ := List.mem_map.mp hrow2
        have hrep0 : repRow repulse (row.map (scalePt kpExt)) i = 0 := by
          unfold repRow
          refine List.sum_eq_zero ?_
          intro t ht
          obtain ⟨q, hq, rfl⟩ := List.mem_map.mp ht
          obtain ⟨j, hjlen, hjne, hjq⟩ :=
            exists_idx_of_mem_removeIdx (row.map (scalePt kpExt)) i q
              ((0:ℝ),(0:ℝ),(0:ℝ)) hq
          have hjK : j < K := by
            rw [List.length_map, hK row hrow] at hjlen; exact hjlen
          have hd := hfar row hrow j i hjK hiK2 hjne
          rw [hjq] at hd
          have h0 : (0:ℝ) ≤ dist3 q ((row.map (scalePt kpExt)).getD i
              ((0:ℝ),(0:ℝ),(0:ℝ))) - repulse := by linarith
          unfold clampMax0
          rw [min_eq_right h0]
          norm_num
        rw [hrep0, abs_zero]
      rw [hsum0, zero_div]
    rw [hz, zero_div]
  · rintro ⟨row, hrow, i, j, hiK, hjK, hne, hlt⟩
    have hK0 : 0 < K := by omega
    have hlen0 : 0 < rows.length := List.length_pos.mpr hrows
    unfold repulsiveLoss
    have hx0 : 0 < repRow repulse (row.map (scalePt kpExt)) i := by
      have hjlen : j < (row.map (scalePt kpExt)).length := by
        rw [List.length_map, hK row hrow]; exact hjK
      have hqmem : (row.map (scalePt kpExt)).getD j ((0:ℝ),(0:ℝ),(0:ℝ)) ∈
          removeIdx (row.map (scalePt kpExt)) i :=
        getD_mem_removeIdx _ i j _ hjlen (Ne.symm hne)
      have hneg : dist3 ((row.map (scalePt kpExt)).getD j ((0:ℝ),(0:ℝ),(0:ℝ)))
          ((row.map (scalePt kpExt)).getD i ((0:ℝ),(0:ℝ),(0:ℝ))) - repulse < 0 := by
        rw [dist3_comm]
        linarith
      have ht0 : 0 < clampMax0 (dist3 ((row.map (scalePt kpExt)).getD j
          ((0:ℝ),(0:ℝ),(0:ℝ))) ((row.map (scalePt kpExt)).getD i
          ((0:ℝ),(0:ℝ),(0:ℝ))) - repulse) ^ 2 := by
        unfold clampMax0
        rw [min_eq_left (le_of_lt hneg), sq]
        exact mul_pos_of_neg_of_neg hneg hneg
      refine lt_of_lt_of_le ht0 ?_
      refine List.single_le_sum ?_ _ (List.mem_map_of_mem _ hqmem)
      intro t ht
      obtain ⟨q, -, rfl⟩ := List.mem_map.mp ht
      exact sq_nonneg _
    have helem : (0:ℝ) < l1Mean ((rows.map (fun r => r.map (scalePt kpExt))).map
        (fun r => repRow repulse r i)) / K := by
      refine div_pos ?_ (by exact_mod_cast hK0)
      unfold l1Mean
      refine div_pos ?_ ?_
      · have hmem1 : repRow repulse (row.map (scalePt kpExt)) i ∈
            (rows.map (fun r => r.map (scalePt kpExt))).map
              (fun r => repRow repulse r i) :=
          List.mem_map_of_mem _ (List.mem_map_of_mem _ hrow)
        have habs : |repRow repulse (row.map (scalePt kpExt)) i| ∈
            ((rows.map (fun r => r.map (scalePt kpExt))).map
              (fun r => repRow repulse r i)).map (fun x => |x|) :=
          List.mem_map_of_mem _ hmem1
        refine lt_of_lt_of_le ?_ (List.single_le_sum (fun y hy => ?_) _ habs)
        · rw [abs_of_pos hx0]; exact hx0
        · obtain ⟨t, -, rfl⟩ := List.mem_map.mp hy
          exact abs_nonneg t
      · simp only [List.length_map]
        exact_mod_cast hlen0
    refine lt_of_lt_of_le helem ?_
    refine List.single_le_sum ?_ _ (List.mem_map_of_mem _ (List.mem_range.mpr hiK))
    intro y hy
    obtain ⟨n, -, rfl⟩ := List.mem_map.mp hy
    exact div_nonneg (l1Mean_nonneg _) (by positivity)

theorem accuracyTarget_eq_lossTarget (valid_labels labels : List ℤ) :
    accuracyTarget valid_labels labels = lossTarget valid_labels labels := rfl

theorem accuracyTarget_length (valid_labels labels : List ℤ) :
    (accuracyTarget valid_labels labels).length = labels.length := by
  rw [accuracyTarget_eq_lossTarget]
  exact lossTarget_length valid_labels labels

/-- Claim C9: the accuracy denominator is the total number of labels including
the ignored ones (accuracy is the count of points whose argmax prediction
equals the remapped target, divided by the count of *all* points), an
ignored point can never count as correct (the argmax is a class index `≥ 0`,
never the sentinel `-1`), whereas the cross-entropy loss with
`ignore_index=-1` computes exactly the value it would compute on the lists
with all ignored entries removed. -/
theorem C9_accuracy_counts_ignored (valid_labels : List ℤ)
    (outputs : List (List ℚ)) (labels : List ℤ) :
    accuracy valid_labels outputs labels =
      (((outputs.map (fun row => (argmaxIdx row : ℤ))).zip
          (accuracyTarget valid_labels labels)).filter
        (fun pt => pt.1 = pt.2)).length / (labels.length : ℚ) ∧
    (∀ pt ∈ (outputs.map (fun row => (argmaxIdx row : ℤ))).zip
        (accuracyTarget valid_labels labels),
      pt.2 = -1 → pt.1 ≠ pt.2) ∧
    ceLoss outputs (lossTarget valid_labels labels) =
      ceLoss
        (((outputs.zip (lossTarget valid_labels labels)).filter
            (fun p => p.2 ≠ -1)).map Prod.fst)
        (((outputs.zip (lossTarget valid_labels labels)).filter
            (fun p => p.2 ≠ -1)).map Prod.snd) := by
  refine ⟨?_, ?_, ?_⟩
  · unfold accuracy
    dsimp only
    rw [accuracyTarget_length]
  · rintro ⟨p, q⟩ hpt hneg
    obtain ⟨hp, -⟩ := List.of_mem_zip hpt
    obtain ⟨row, -, rfl⟩ := List.mem_map.mp hp
    simp only at hneg
    intro hcontra
    rw [hneg] at hcontra
    omega
  · unfold ceLoss
    have hzip : (((outputs.zip (lossTarget valid_labels labels)).filter
          (fun p => p.2 ≠ -1)).map Prod.fst).zip
        (((outputs.zip (lossTarget valid_labels labels)).filter
          (fun p => p.2 ≠ -1)).map Prod.snd) =
        (outputs.zip (lossTarget valid_labels labels)).filter
          (fun p => p.2 ≠ -1) := by
      rw [List.zip_map' Prod.fst Prod.snd]
      simp
    rw [hzip]
    have hfilter : ((outputs.zip (lossTarget valid_labels labels)).filter
          (fun p => p.2 ≠ -1)).filter (fun p => p.2 ≠ -1) =
        (outputs.zip (lossTarget valid_labels labels)).filter
          (fun p => p.2 ≠ -1) := by
      refine List.filter_eq_self.mpr ?_
      intro x hx
      exact (List.mem_filter.mp hx).2
    rw [hfilter]

/-- Claim C9, witness: the statement at a concrete batch: logits for three
points over two classes, labels `[0, 1, 7]` with valid labels `[0, 1]` (the
label `7` is remapped to the ignored sentinel). -/
theorem C9_witness :
    accuracy [0, 1] [[5, 2], [0, 9], [1, 3]] [0, 1, 7] =
      (((([[5, 2], [0, 9], [1, 3]] : List (List ℚ)).map
          (fun row => (argmaxIdx row : ℤ))).zip
            (accuracyTarget [0, 1] [0, 1, 7])).filter
        (fun pt => pt.1 = pt.2)).length / ((([0, 1, 7] : List ℤ).length : ℚ)) ∧
    (∀ pt ∈ (([[5, 2], [0, 9], [1, 3]] : List (List ℚ)).map
        (fun row => (argmaxIdx row : ℤ))).zip (accuracyTarget [0, 1] [0, 1, 7]),
      pt.2 = -1 → pt.1 ≠ pt.2) ∧
    ceLoss [[5, 2], [0, 9], [1, 3]] (lossTarget [0, 1] [0, 1, 7]) =
      ceLoss
        (((([[5, 2], [0, 9], [1, 3]] : List (List ℚ)).zip
            (lossTarget [0, 1] [0, 1, 7])).filter
            (fun p => p.2 ≠ -1)).map Prod.fst)
        (((([[5, 2], [0, 9], [1, 3]] : List (List ℚ)).zip
            (lossTarget [0, 1] [0, 1, 7])).filter
            (fun p => p.2 ≠ -1)).map Prod.snd) :=
  C9_accuracy_counts_ignored [0, 1] [[5, 2], [0, 9], [1, 3]] [0, 1, 7]

/-- Claim C8, witness: two kernel points at distance 2 with extent 1 give a
zero repulsion term; two coincident kernel points (distance 0) give a
strictly positive one. -/
theorem C8_witness :
    repulsiveLoss 2 1 1 [[((0:ℝ),(0:ℝ),(0:ℝ)), ((2:ℝ),(0:ℝ),(0:ℝ))]] = 0 ∧
    0 < repulsiveLoss 2 1 1 [[((0:ℝ),(0:ℝ),(0:ℝ)), ((0:ℝ),(0:ℝ),(0:ℝ))]] := by
  constructor
  · refine (C8_repulsion_sign 2 1 1 _ ?_ ?_).1 ?_
    · intro row hrow
      simp only [List.mem_singleton] at hrow
      subst hrow
      rfl
    · simp
    · intro row hrow i j hi hj hne
      simp only [List.mem_singleton] at hrow
      subst hrow
      have hsqrt4 : Real.sqrt 4 = 2 := by
        rw [show (4:ℝ) = 2 ^ 2 by norm_num]
        exact Real.sqrt_sq (by norm_num)
      interval_cases i <;> interval_cases j <;>
        first
          | omega
          | simp [dist3, sqDist3, scalePt, hsqrt4]
  · refine (C8_repulsion_sign 2 1 1 _ ?_ ?_).2 ?_
    · intro row hrow
      simp only [List.mem_singleton] at hrow
      subst hrow
      rfl
    · simp
    · refine ⟨[((0:ℝ),(0:ℝ),(0:ℝ)), ((0:ℝ),(0:ℝ),(0:ℝ))], by simp, 0, 1,
        by norm_num, by norm_num, by norm_num, ?_⟩
      simp [dist3, sqDist3, scalePt]

end KPConvFusion
